import Mathlib

/-!
# Verification of the Newegg price-tracker core

Shallow embedding of the history-ingestion and analytics pipeline of the
`web-scraping` repository:

* `scraper_newegg_tracker_commented.py` — scraped rows (`scrape_category`) and
  the append/dedup merge into the CSV history (`save_history_append`);
* `analysis.py` — loading/cleaning (`load_and_clean`), category/date filtering
  (`filter_df`), daily aggregation (`compute_daily_stats`) and the ranked
  price-drop report (`compute_top_drops`).

Modelling conventions:

* a pandas `DataFrame` is a `List` of typed row structures; a nullable column
  is an `Option` field (`none` = `NaN`/`NaT`/`None`);
* a field produced by a library parser (`pd.to_datetime(..., errors="coerce")`,
  `pd.to_numeric(..., errors="coerce")`) carries the parse result directly,
  `none` standing for a failed parse;
* timestamps are UTC seconds (`Nat`); the derived calendar day is `t / 86400`;
  prices are exact rationals (`ℚ`), standing in for the floats of the source;
* `df.sort_values(...)` is modelled by a stable insertion sort on the very key
  the source passes; `df.drop_duplicates(subset=[...], keep="last")` by
  `dedupLast`, which keeps, for each key, the last occurrence, preserving the
  relative order of the kept rows — exactly pandas' behaviour;
* file I/O (`read_csv` / `to_csv`) is dropped: every boundary function is
  modelled as the pure transformation between loaded rows and returned rows.

The file is organised as definitions first, then the theorems about them.
-/

set_option maxRecDepth 4000

namespace PriceTracker

/-! ## Definitions: `drop_duplicates(subset=key, keep="last")` -/

/-- pandas `drop_duplicates(subset=key, keep="last")`: keep, for every key,
only its last occurrence, in the order those last occurrences appear. -/
def dedupLast {α κ : Type} [DecidableEq κ] (key : α → κ) : List α → List α
  | [] => []
  | x :: xs => if key x ∈ xs.map key then dedupLast key xs else x :: dedupLast key xs

/-! ## Definitions: scraped rows and the tracker merge (`save_history_append`)

One element of the `rows` list built by `scrape_category`: the dict with keys
`category, scrape_datetime_utc, page, rank, product_name, product_url, brand,
price_value, rating_avg, rating_count, availability`.  `product_url` is `None`
when the title tag has no `href`; `price_value`, `rating_avg`, `rating_count`
are `None` on failed extraction.  The history CSV holds rows of the same
shape. -/

structure SRow where
  category : String
  scrape_datetime_utc : String
  page : Nat
  rank : Nat
  product_name : String
  product_url : Option String
  brand : String
  price_value : Option ℚ
  rating_avg : Option ℚ
  rating_count : Option Nat
  availability : String
deriving DecidableEq

/-- The composite key `(product_url, scrape_datetime_utc)` used by the
`drop_duplicates` call in `save_history_append`. -/
def srowKey (r : SRow) : Option String × String := (r.product_url, r.scrape_datetime_utc)

/-- `save_history_append(csv_path, df_new)` minus the file I/O: concatenate the
loaded history with the new batch (or take the batch alone when the history is
empty) and drop exact duplicates of `(product_url, scrape_datetime_utc)`,
keeping the last.  The `"product_url" in df_out.columns` guard of the source
always holds in this typed model. -/
def save_history_append (df_hist df_new : List SRow) : List SRow :=
  let df_out := if df_hist.isEmpty then df_new else df_hist ++ df_new
  dedupLast srowKey df_out

/-! ## Definitions: ordering helpers

Python compares strings lexicographically by code point; pandas string sorts
agree.  Lean's built-in `String` order does not reduce inside the kernel, so
the same order is defined here over the underlying character lists. -/

def charListLt : List Char → List Char → Bool
  | [], [] => false
  | [], _ :: _ => true
  | _ :: _, [] => false
  | a :: as, b :: bs =>
    if a.toNat < b.toNat then true
    else if b.toNat < a.toNat then false
    else charListLt as bs

/-- Strict lexicographic (code-point) order on strings. -/
def strLt (a b : String) : Bool := charListLt a.data b.data

/-- Reflexive lexicographic order on strings. -/
def strLe (a b : String) : Bool := strLt a b || a == b

/-- `strLe` as a binary relation, for the sorting combinators. -/
def strOrder (a b : String) : Prop := strLe a b = true

instance : DecidableRel strOrder := fun _ _ => inferInstanceAs (Decidable (_ = true))

/-- Modelled from the spec: §4.2 claims a "stable sort by (product_url,
collected_at) is applied before dedup" inside the merge.  `save_history_append`
in the source contains no sort at all, so this sort exists only to compare the
claimed behaviour with the merge's actual output.  A missing `product_url`
sorts as the empty string. -/
def sortByKeySpec (l : List SRow) : List SRow :=
  List.insertionSort (fun a b =>
    (strLt (a.product_url.getD "") (b.product_url.getD "")
      || (a.product_url.getD "" == b.product_url.getD ""
          && strLe a.scrape_datetime_utc b.scrape_datetime_utc)) = true) l

/-- A scraped observation with URL `.../a`. -/
def rowUrlA : SRow :=
  { category := "GPU", scrape_datetime_utc := "2026-01-01T00:00:00+00:00",
    page := 1, rank := 1, product_name := "Product A",
    product_url := some "https://www.newegg.com/a", brand := "BrandA",
    price_value := some 100, rating_avg := none, rating_count := none,
    availability := "In stock" }

/-- A scraped observation with URL `.../b`, same timestamp. -/
def rowUrlB : SRow :=
  { rowUrlA with
    product_name := "Product B"
    product_url := some "https://www.newegg.com/b"
    price_value := some 200 }

/-- A second observation of `rowUrlA`'s product at the same timestamp but a
different price: a true composite-key duplicate. -/
def rowUrlA2 : SRow := { rowUrlA with price_value := some 90 }

/-! ## Definitions: `analysis.py` rows and cleaning -/

def secondsPerDay : Nat := 86400

/-- The calendar day (UTC) derived from a timestamp,
`df["scrape_datetime_utc"].dt.date`. -/
def dayOf (t : Nat) : Nat := t / secondsPerDay

/-- ASCII whitespace as trimmed by python's `str.strip` / pandas `.str.strip`. -/
def isSpaceChar (c : Char) : Bool := c == ' ' || c == '\t' || c == '\n' || c == '\r'

/-- python `str.strip()`: drop whitespace from both ends. -/
def stripStr (s : String) : String :=
  ⟨((s.data.dropWhile isSpaceChar).reverse.dropWhile isSpaceChar).reverse⟩

/-- One row of `prices_history.csv` as read by `pd.read_csv`: text fields may
be missing (`NaN`); `scrape_datetime_utc` and `price_value` carry the result
of the `errors="coerce"` parses (`none` = `NaT`/`NaN`).  The rating columns
play no role in any analysed function and are omitted. -/
structure RawRow where
  category : Option String
  scrape_datetime_utc : Option Nat
  product_url : Option String
  product_name : Option String
  brand : Option String
  availability : Option String
  price_value : Option ℚ
deriving DecidableEq

/-- A row of the cleaned analysis frame: text columns normalised with
`astype("string").fillna("").str.strip()`, plus the derived `scrape_date`,
`has_url` and `has_price` columns. -/
structure ARow where
  category : String
  scrape_datetime_utc : Option Nat
  scrape_date : Option Nat
  product_url : String
  product_name : String
  brand : String
  availability : String
  price_value : Option ℚ
  has_url : Bool
  has_price : Bool
deriving DecidableEq

/-- The per-row part of `load_and_clean`: parse results, derived day, text
normalisation (`fillna("").str.strip()`) and the `has_url` / `has_price`
flags (`has_price` = price present and `> 0`). -/
def cleanRow (r : RawRow) : ARow :=
  let url := stripStr (r.product_url.getD "")
  { category := stripStr (r.category.getD "")
    scrape_datetime_utc := r.scrape_datetime_utc
    scrape_date := r.scrape_datetime_utc.map dayOf
    product_url := url
    product_name := stripStr (r.product_name.getD "")
    brand := stripStr (r.brand.getD "")
    availability := stripStr (r.availability.getD "")
    price_value := r.price_value
    has_url := decide (0 < url.length)
    has_price :=
      match r.price_value with
      | some p => decide (0 < p)
      | none => false }

/-- Option-valued timestamp order: pandas sorts `NaT` last. -/
def optTsLe : Option Nat → Option Nat → Bool
  | some a, some b => decide (a ≤ b)
  | some _, none => true
  | none, some _ => false
  | none, none => true

/-- The `sort_values(["product_url", "scrape_datetime_utc"])` key order. -/
def urlTsLe (a b : ARow) : Bool :=
  strLt a.product_url b.product_url
    || (a.product_url == b.product_url
        && optTsLe a.scrape_datetime_utc b.scrape_datetime_utc)

/-- `urlTsLe` as a binary relation, for the sorting combinators. -/
def urlTsOrder (a b : ARow) : Prop := urlTsLe a b = true

instance : DecidableRel urlTsOrder := fun _ _ => inferInstanceAs (Decidable (_ = true))

/-- The dedup key `(product_url, scrape_datetime_utc)` of `load_and_clean`. -/
def aKey (r : ARow) : String × Option Nat := (r.product_url, r.scrape_datetime_utc)

/-- `load_and_clean(csv_path)` minus the file I/O and the `_require_columns`
schema check (a typed `RawRow` always has the required columns): clean each
row, drop rows with an unparseable timestamp (`dropna` on
`scrape_datetime_utc` and `scrape_date` — the derived day is `none` exactly
when the timestamp is), keep URL-bearing rows, keep priced rows, then
sort by `(product_url, scrape_datetime_utc)` and drop composite-key
duplicates keeping the last. -/
def load_and_clean (df : List RawRow) : List ARow :=
  let df1 := df.map cleanRow
  let df2 := df1.filter (fun r => r.scrape_datetime_utc.isSome)
  let df3 := df2.filter (fun r => r.has_url)
  let df4 := df3.filter (fun r => r.has_price)
  let df5 := List.insertionSort urlTsOrder df4
  dedupLast aKey df5

/-- A fully well-formed raw row. -/
def rawGood : RawRow :=
  { category := some "GPU", scrape_datetime_utc := some 86400,
    product_url := some " https://www.newegg.com/p ", product_name := some "P",
    brand := some "BrandA", availability := some "In stock",
    price_value := some 50 }

/-- A raw row whose `brand` and `availability` are whitespace only (empty
after trimming) but which is otherwise well-formed. -/
def rawBlankBrand : RawRow :=
  { rawGood with
    brand := some "   "
    availability := some " " }

/-! ## Definitions: category/date filtering (`filter_df`) -/

/-- The two failure modes of `filter_df`, raised as `ValueError` in the
source: an unknown category (carrying the list of available ones) or a date
window that removes every row. -/
inductive FilterError
  | UnknownCategory : List String → FilterError
  | EmptyResultSet : FilterError
deriving DecidableEq

/-- `available_categories(df)`: the sorted distinct non-empty categories. -/
def available_categories (df : List ARow) : List String :=
  List.insertionSort strOrder
    ((df.map (fun r => r.category)).dedup.filter (fun c => !(c == "")))

/-- The optional inclusive start/end day bounds applied to the `scrape_date`
column (`d[d["scrape_date"] >= start_d]`, then `<= end_d`; a `NaT` day never
satisfies a pandas comparison). -/
def filterByDates (d : List ARow) (startD endD : Option Nat) : List ARow :=
  let d1 := match startD with
    | none => d
    | some s => d.filter (fun r => match r.scrape_date with
        | some x => decide (s ≤ x)
        | none => false)
  match endD with
  | none => d1
  | some e => d1.filter (fun r => match r.scrape_date with
      | some x => decide (x ≤ e)
      | none => false)

/-- `filter_df(df, category, start, end)`: exact category match, then the
inclusive date window; the two `ValueError`s of the source become the two
`FilterError` constructors.  `start`/`end` arrive pre-parsed as optional
days (`pd.to_datetime(...).date()`); the source treats an empty string like
`None`. -/
def filter_df (df : List ARow) (category : String) (startD endD : Option Nat) :
    Except FilterError (List ARow) :=
  let d := df.filter (fun r => r.category == category)
  if d.isEmpty then .error (.UnknownCategory (available_categories df))
  else
    let d2 := filterByDates d startD endD
    if d2.isEmpty then .error .EmptyResultSet
    else .ok d2

/-- A cleaned observation in category "Monitor". -/
def rowMon : ARow :=
  { category := "Monitor", scrape_datetime_utc := some 86400,
    scrape_date := some 1, product_url := "https://www.newegg.com/m",
    product_name := "M", brand := "BrandM", availability := "In stock",
    price_value := some 100, has_url := true, has_price := true }

/-- A cleaned observation in category "SSD". -/
def rowSsd : ARow :=
  { rowMon with
    category := "SSD"
    product_url := "https://www.newegg.com/s" }

/-- A two-category history holding no "GPU" rows. -/
def dfCats : List ARow := [rowMon, rowSsd]

/-! ## Definitions: daily aggregation (`compute_daily_stats`) -/

/-- One row of the `compute_daily_stats` output frame. -/
structure DailyStat where
  scrape_date : Nat
  avg_price : ℚ
  median_price : ℚ
  min_price : ℚ
  max_price : ℚ
  products_count : Nat
  observations : Nat
  avg_price_ma7 : ℚ
deriving DecidableEq

/-- pandas `Series.median()`: middle of the sorted values, mean of the two
middle values on even length.  (On an empty list pandas yields `NaN`; the
model yields `0`.  The function is only applied to nonempty day groups.) -/
def medianQ (l : List ℚ) : ℚ :=
  let s := List.insertionSort (fun a b : ℚ => a ≤ b) l
  if s.length % 2 = 1 then s.getD (s.length / 2) 0
  else (s.getD (s.length / 2 - 1) 0 + s.getD (s.length / 2) 0) / 2

/-- Minimum of a price list (`0` on the unreachable empty case). -/
def listMin : List ℚ → ℚ
  | [] => 0
  | p :: ps => ps.foldl min p

/-- Maximum of a price list (`0` on the unreachable empty case). -/
def listMax : List ℚ → ℚ
  | [] => 0
  | p :: ps => ps.foldl max p

/-- The `groupby("scrape_date").agg(...)` row for one day: `mean`, `median`,
`min`, `max` over the day's non-null prices, `nunique` of `product_url`,
`count` of non-null prices.  `avg_price_ma7` is filled by the rolling pass. -/
def statOfDay (d : List ARow) (day : Nat) : DailyStat :=
  let g := d.filter (fun r => r.scrape_date == some day)
  let prices := g.filterMap (fun r => r.price_value)
  { scrape_date := day
    avg_price := prices.sum / prices.length
    median_price := medianQ prices
    min_price := listMin prices
    max_price := listMax prices
    products_count := (g.map (fun r => r.product_url)).dedup.length
    observations := prices.length
    avg_price_ma7 := 0 }

/-- The distinct days of the frame, ascending — `groupby` sorts its keys (and
the following `sort_values("scrape_date")` is a no-op); rows whose
`scrape_date` is `NaT` are dropped from the grouping. -/
def daysOf (d : List ARow) : List Nat :=
  List.insertionSort (fun a b : Nat => a ≤ b) (d.filterMap (fun r => r.scrape_date)).dedup

/-- The trailing-window mean `rolling(window=7, min_periods=1).mean()` at
position `i` of the sequence `avgs`: mean of the window from position
`max 0 (i - 6)` through `i`. -/
def rollingMean7At (avgs : List ℚ) (i : Nat) : ℚ :=
  let w := (avgs.take (i + 1)).drop (i + 1 - 7)
  w.sum / w.length

/-- Attach the rolling-mean column to the per-day stats. -/
def withMa7 (base : List DailyStat) : List DailyStat :=
  let avgs := base.map (fun b => b.avg_price)
  List.zipWith (fun i b => { b with avg_price_ma7 := rollingMean7At avgs i })
    (List.range base.length) base

/-- `compute_daily_stats(d)`: per-day stats ascending by day, plus the 7-day
rolling mean of `avg_price`. -/
def compute_daily_stats (d : List ARow) : List DailyStat :=
  withMa7 ((daysOf d).map (statOfDay d))

/-- Scenario D input: ten consecutive days, one observation per day, constant
price 50. -/
def scenarioD : List ARow :=
  (List.range 10).map (fun i =>
    { category := "GPU", scrape_datetime_utc := some (i * 86400),
      scrape_date := some i, product_url := "https://www.newegg.com/p",
      product_name := "P", brand := "BrandP", availability := "In stock",
      price_value := some 50, has_url := true, has_price := true })

/-! ## Definitions: the drop ranker (`compute_top_drops`) -/

/-- One row of the `compute_top_drops` output frame. -/
structure DropRec where
  product_name : String
  product_url : String
  scrape_date_first : Option Nat
  price_first : Option ℚ
  scrape_date_last : Option Nat
  price_last : Option ℚ
  drop_abs : Option ℚ
  drop_pct : Option ℚ
deriving DecidableEq

/-- The merged first/last aggregation row for one product group `g` (the rows
of one `product_url`, already sorted by timestamp): pandas
`groupby(...).first()` / `.last()` take the first/last non-null value per
column (the model's string columns are never null, so the positionally first
row supplies them); `drop_abs` and `drop_pct` propagate missing prices like
NaN arithmetic.  `drop_pct` after a zero `price_first` is a model value for
pandas' infinity; no such record can carry a positive `drop_abs` when prices
are non-negative, so none reaches the report. -/
def mkDropRec (g : List ARow) : DropRec :=
  let prices := g.filterMap (fun r => r.price_value)
  let dates := g.filterMap (fun r => r.scrape_date)
  let priceFirst := prices.head?
  let priceLast := prices.getLast?
  let dropAbs := match priceFirst, priceLast with
    | some a, some b => some (a - b)
    | _, _ => none
  { product_name := (g.head?.map (fun r => r.product_name)).getD ""
    product_url := (g.head?.map (fun r => r.product_url)).getD ""
    scrape_date_first := dates.head?
    price_first := priceFirst
    scrape_date_last := dates.getLast?
    price_last := priceLast
    drop_abs := dropAbs
    drop_pct := match dropAbs, priceFirst with
      | some ab, some pf => some (ab / pf * 100)
      | _, _ => none }

/-- The recorded `drop_pct` (missing defaults to 0; never missing in the
report, whose rows all pass the positive-`drop_abs` filter). -/
def pctVal (r : DropRec) : ℚ := r.drop_pct.getD 0

/-- The recorded `drop_abs`, same convention. -/
def absVal (r : DropRec) : ℚ := r.drop_abs.getD 0

/-- `sort_values("drop_pct", ascending=False)` key order: `a` may precede `b`
when `b`'s percentage does not exceed `a`'s. -/
def dropOrder (a b : DropRec) : Prop := pctVal b ≤ pctVal a

instance : DecidableRel dropOrder := fun a b =>
  inferInstanceAs (Decidable (pctVal b ≤ pctVal a))

/-- All positive first-minus-last drops of the frame: per `product_url`
ascending (`groupby("product_url")` sorts its keys and the `merge` on that
unique key preserves the order), `drop_abs > 0` only, sorted by `drop_pct`
descending. -/
def top_drops_all (d : List ARow) : List DropRec :=
  let ds := List.insertionSort urlTsOrder d
  let urls := List.insertionSort strOrder (ds.map (fun r => r.product_url)).dedup
  let recs := urls.map (fun u => mkDropRec (ds.filter (fun r => r.product_url == u)))
  let out := recs.filter (fun r => match r.drop_abs with
    | some a => decide (0 < a)
    | none => false)
  List.insertionSort dropOrder out

/-- pandas `DataFrame.head(n)`: the first `n` rows for `n ≥ 0`, all but the
last `|n|` rows for negative `n`. -/
def headPandas {α : Type} (l : List α) (n : Int) : List α :=
  if 0 ≤ n then l.take n.toNat else l.take (l.length - n.natAbs)

/-- `compute_top_drops(d, top_n)`: empty when fewer than two distinct
collection days are present; otherwise the positive drops, sorted by
`drop_pct` descending, truncated with `head(top_n)`. -/
def compute_top_drops (d : List ARow) (top_n : Int) : List DropRec :=
  if (d.filterMap (fun r => r.scrape_date)).dedup.length < 2 then []
  else headPandas (top_drops_all d) top_n

/-- The ordering the spec claims for the report: `drop_pct` descending, ties
by `drop_abs` descending, then by `product_url` ascending. -/
def specDropOrder (a b : DropRec) : Prop :=
  pctVal b < pctVal a
    ∨ (pctVal a = pctVal b
        ∧ (absVal b < absVal a
            ∨ (absVal a = absVal b ∧ strLt a.product_url b.product_url = true)))

instance : DecidableRel specDropOrder := fun a b =>
  inferInstanceAs (Decidable (pctVal b < pctVal a
    ∨ (pctVal a = pctVal b
        ∧ (absVal b < absVal a
            ∨ (absVal a = absVal b ∧ strLt a.product_url b.product_url = true)))))

/-- Day-1 observation of product `a` at price 100. -/
def rowA1 : ARow :=
  { category := "GPU", scrape_datetime_utc := some 0, scrape_date := some 0,
    product_url := "https://www.newegg.com/a", product_name := "A",
    brand := "BrandA", availability := "In stock", price_value := some 100,
    has_url := true, has_price := true }

/-- Day-2 observation of product `a` at price 80: drop 20, 20%. -/
def rowA2 : ARow :=
  { rowA1 with
    scrape_datetime_utc := some 86400
    scrape_date := some 1
    price_value := some 80 }

/-- Day-1 observation of product `b` at price 200. -/
def rowB1 : ARow :=
  { rowA1 with
    product_url := "https://www.newegg.com/b"
    product_name := "B"
    price_value := some 200 }

/-- Day-2 observation of product `b` at price 160: drop 40, also 20%. -/
def rowB2 : ARow :=
  { rowB1 with
    scrape_datetime_utc := some 86400
    scrape_date := some 1
    price_value := some 160 }

/-- Two products over two days whose drops tie on `drop_pct` (20%) but differ
on `drop_abs` (20 vs 40). -/
def dfDrops : List ARow := [rowA1, rowB1, rowA2, rowB2]

/-! ## Theorems: deduplication lemmas -/

theorem dedupLast_cons {α κ : Type} [DecidableEq κ] (key : α → κ)
    (x : α) (xs : List α) :
    dedupLast key (x :: xs) =
      if key x ∈ xs.map key then dedupLast key xs else x :: dedupLast key xs := rfl

theorem mem_map_key_dedupLast {α κ : Type} [DecidableEq κ] (key : α → κ)
    (l : List α) (k : κ) : k ∈ (dedupLast key l).map key ↔ k ∈ l.map key := by
  induction l with
  | nil => exact Iff.rfl
  | cons x xs ih =>
    rw [dedupLast_cons]
    by_cases h : key x ∈ xs.map key
    · rw [if_pos h, List.map_cons, List.mem_cons, ih]
      exact ⟨Or.inr, fun hk => hk.elim (fun e => e ▸ h) id⟩
    · rw [if_neg h, List.map_cons, List.map_cons, List.mem_cons, List.mem_cons, ih]

theorem mem_of_mem_dedupLast {α κ : Type} [DecidableEq κ] (key : α → κ)
    {l : List α} {x : α} (hx : x ∈ dedupLast key l) : x ∈ l := by
  induction l with
  | nil => exact hx
  | cons y ys ih =>
    rw [dedupLast_cons] at hx
    by_cases h : key y ∈ ys.map key
    · rw [if_pos h] at hx
      exact List.mem_cons_of_mem _ (ih hx)
    · rw [if_neg h, List.mem_cons] at hx
      rcases hx with rfl | hx
      · exact List.mem_cons_self _ _
      · exact List.mem_cons_of_mem _ (ih hx)

theorem pairwise_keys_dedupLast {α κ : Type} [DecidableEq κ] (key : α → κ)
    (l : List α) : List.Pairwise (fun a b => key a ≠ key b) (dedupLast key l) := by
  induction l with
  | nil => exact List.Pairwise.nil
  | cons x xs ih =>
    rw [dedupLast_cons]
    by_cases h : key x ∈ xs.map key
    · rw [if_pos h]; exact ih
    · rw [if_neg h]
      refine List.Pairwise.cons (fun b hb => ?_) ih
      intro hkey
      apply h
      rw [hkey]
      exact (mem_map_key_dedupLast key xs (key b)).mp (List.mem_map_of_mem key hb)

theorem dedupLast_eq_self {α κ : Type} [DecidableEq κ] (key : α → κ)
    {l : List α} (h : List.Pairwise (fun a b => key a ≠ key b) l) :
    dedupLast key l = l := by
  induction l with
  | nil => rfl
  | cons x xs ih =>
    rcases List.pairwise_cons.mp h with ⟨hx, hxs⟩
    have hmem : key x ∉ xs.map key := by
      intro hk
      rcases List.mem_map.mp hk with ⟨b, hb, hkey⟩
      exact hx b hb hkey.symm
    rw [dedupLast_cons, if_neg hmem, ih hxs]

theorem dedupLast_append {α κ : Type} [DecidableEq κ] (key : α → κ)
    (l m : List α) :
    dedupLast key (l ++ m) =
      (dedupLast key l).filter (fun x => !decide (key x ∈ m.map key))
        ++ dedupLast key m := by
  induction l with
  | nil => rw [List.nil_append]; rfl
  | cons x xs ih =>
    rw [List.cons_append, dedupLast_cons, dedupLast_cons]
    by_cases h : key x ∈ xs.map key
    · have h' : key x ∈ (xs ++ m).map key := by
        rw [List.map_append]; exact List.mem_append_left _ h
      rw [if_pos h', if_pos h, ih]
    · by_cases hm : key x ∈ m.map key
      · have h' : key x ∈ (xs ++ m).map key := by
          rw [List.map_append]; exact List.mem_append_right _ hm
        rw [if_pos h', if_neg h, ih, List.filter_cons, if_neg (by simp [hm])]
      · have h' : key x ∉ (xs ++ m).map key := by
          rw [List.map_append]
          simp only [List.mem_append]
          exact fun hc => hc.elim h hm
        rw [if_neg h', if_neg h, ih, List.filter_cons, if_pos (by simp [hm]),
          List.cons_append]

theorem filter_not_mem_keys_dedupLast {α κ : Type} [DecidableEq κ] (key : α → κ)
    (m : List α) :
    (dedupLast key m).filter (fun x => !decide (key x ∈ m.map key)) = [] := by
  rw [List.filter_eq_nil_iff]
  intro a ha
  have : key a ∈ m.map key :=
    List.mem_map_of_mem key (mem_of_mem_dedupLast key ha)
  simp [this]

theorem dedupLast_filter_key_singleton {α κ : Type} [DecidableEq κ]
    (key : α → κ) (m : List α) (r : α) :
    (dedupLast key (m ++ [r])).filter (fun x => decide (key x = key r)) = [r] := by
  rw [dedupLast_append key m [r], List.filter_append]
  have h1 : (dedupLast key [r]).filter (fun x => decide (key x = key r)) = [r] := by
    simp [dedupLast]
  rw [h1, List.filter_filter]
  have h2 : ((dedupLast key m).filter
      (fun a => decide (key a = key r) && !decide (key a ∈ [r].map key))) = [] := by
    rw [List.filter_eq_nil_iff]
    intro a _
    by_cases hk : key a = key r <;> simp [hk]
  rw [h2, List.nil_append]

/-! ## Theorems: the tracker merge (claims C1–C3) -/

theorem save_history_append_eq (df_hist df_new : List SRow) :
    save_history_append df_hist df_new = dedupLast srowKey (df_hist ++ df_new) := by
  cases df_hist <;> simp [save_history_append]

/-- C1: merge is idempotent — for every history `H` and batch `B`,
`merge(merge(H, B), B) = merge(H, B)`: re-ingesting the same batch is a
no-op. -/
theorem save_history_append_idempotent (H B : List SRow) :
    save_history_append (save_history_append H B) B = save_history_append H B := by
  simp only [save_history_append_eq]
  rw [dedupLast_append srowKey (dedupLast srowKey (H ++ B)) B,
    dedupLast_eq_self srowKey (pairwise_keys_dedupLast srowKey (H ++ B)),
    dedupLast_append srowKey H B, List.filter_append,
    filter_not_mem_keys_dedupLast, List.append_nil, List.filter_filter]
  congr 1
  apply List.filter_congr
  intro a _
  simp

/-- C2: composite-key uniqueness — after any merge, no two rows of the result
share the same `(product_url, scrape_datetime_utc)` pair. -/
theorem save_history_append_key_unique (H B : List SRow) :
    List.Pairwise (fun a b => srowKey a ≠ srowKey b) (save_history_append H B) := by
  rw [save_history_append_eq]
  exact pairwise_keys_dedupLast srowKey (H ++ B)

/-- C3 counterexample: `save_history_append` applies no sort before its
deduplication.  Merging batch `[rowUrlA]` into history `[rowUrlB]` keeps the
concatenation order `[rowUrlB, rowUrlA]`, which differs from what
sort-then-dedup by `(product_url, collected_at)` would produce. -/
theorem merge_applies_no_sort_counterexample :
    save_history_append [rowUrlB] [rowUrlA] ≠
      dedupLast srowKey (sortByKeySpec ([rowUrlB] ++ [rowUrlA])) := by
  decide

/-- C3 (amended): the merge applies no sort before deduplication — the
keep-last dedup on the concatenation alone makes the later-inserted record
win.  For every history and every pair of observations with identical
`(product_url, collected_at)` merged in sequence, the merged history retains
the last-merged one and (unless the two rows are equal) no longer contains the
first. -/
theorem merge_last_write_wins (H : List SRow) (r1 r2 : SRow)
    (hkey : srowKey r1 = srowKey r2) :
    (save_history_append (save_history_append H [r1]) [r2]).filter
        (fun x => decide (srowKey x = srowKey r2)) = [r2]
      ∧ (r1 = r2 ∨ r1 ∉ save_history_append (save_history_append H [r1]) [r2]) := by
  have hfil : (save_history_append (save_history_append H [r1]) [r2]).filter
      (fun x => decide (srowKey x = srowKey r2)) = [r2] := by
    rw [save_history_append_eq]
    exact dedupLast_filter_key_singleton srowKey _ r2
  refine ⟨hfil, ?_⟩
  by_cases h12 : r1 = r2
  · exact Or.inl h12
  · refine Or.inr fun hmem => ?_
    have hr1 : r1 ∈ [r2] := by
      rw [← hfil]
      exact List.mem_filter.mpr ⟨hmem, by simp [hkey]⟩
    simp only [List.mem_singleton] at hr1
    exact h12 hr1

theorem merge_last_write_wins_witness :
    (save_history_append (save_history_append [] [rowUrlA]) [rowUrlA2]).filter
        (fun x => decide (srowKey x = srowKey rowUrlA2)) = [rowUrlA2]
      ∧ (rowUrlA = rowUrlA2
          ∨ rowUrlA ∉ save_history_append (save_history_append [] [rowUrlA]) [rowUrlA2]) :=
  merge_last_write_wins [] rowUrlA rowUrlA2 (by decide)

/-! ## Theorems: the loader/normalizer (claims C4 and C10) -/

theorem cleanRow_has_url {raw : RawRow} (h : (cleanRow raw).has_url = true) :
    (cleanRow raw).product_url ≠ "" := by
  simp only [cleanRow, decide_eq_true_eq] at h ⊢
  intro he
  rw [he] at h
  exact absurd h (by decide)

theorem cleanRow_has_price {raw : RawRow} (h : (cleanRow raw).has_price = true) :
    ∃ p : ℚ, (cleanRow raw).price_value = some p ∧ 0 < p := by
  simp only [cleanRow] at h ⊢
  cases hp : raw.price_value with
  | none => rw [hp] at h; exact absurd h (by simp)
  | some p =>
    rw [hp] at h
    simp only [decide_eq_true_eq] at h
    exact ⟨p, rfl, h⟩

theorem mem_load_and_clean {df : List RawRow} {r : ARow}
    (hr : r ∈ load_and_clean df) :
    ∃ raw ∈ df, r = cleanRow raw ∧ r.scrape_datetime_utc.isSome = true
      ∧ r.has_url = true ∧ r.has_price = true := by
  simp only [load_and_clean] at hr
  have h4 := (List.perm_insertionSort urlTsOrder _).mem_iff.mp
    (mem_of_mem_dedupLast aKey hr)
  rcases List.mem_filter.mp h4 with ⟨h3, hprice⟩
  rcases List.mem_filter.mp h3 with ⟨h2, hurl⟩
  rcases List.mem_filter.mp h2 with ⟨h1, hts⟩
  rcases List.mem_map.mp h1 with ⟨raw, hraw, hre⟩
  exact ⟨raw, hraw, hre.symm, hts, hurl, hprice⟩

/-- C4: normalizer postcondition — every row of the cleaned history has a
parseable UTC timestamp, a non-empty trimmed `product_url`, and a present
price strictly greater than 0; rows lacking any of these never appear in
`load_and_clean`'s output. -/
theorem load_and_clean_postcondition (df : List RawRow) (r : ARow)
    (hr : r ∈ load_and_clean df) :
    r.scrape_datetime_utc.isSome = true ∧ r.product_url ≠ ""
      ∧ ∃ p : ℚ, r.price_value = some p ∧ 0 < p := by
  obtain ⟨raw, _, rfl, hts, hurl, hprice⟩ := mem_load_and_clean hr
  refine ⟨hts, cleanRow_has_url hurl, ?_⟩
  obtain ⟨p, hp, hpos⟩ := cleanRow_has_price hprice
  exact ⟨p, by simpa [cleanRow] using hp, hpos⟩

theorem load_and_clean_postcondition_witness :
    (cleanRow rawGood).scrape_datetime_utc.isSome = true
      ∧ (cleanRow rawGood).product_url ≠ ""
      ∧ ∃ p : ℚ, (cleanRow rawGood).price_value = some p ∧ 0 < p :=
  load_and_clean_postcondition [rawGood] (cleanRow rawGood) (by decide)

/-- C10 counterexample: a record whose `brand` and `availability` are empty
after trimming is kept with empty strings in those fields, not with the
default `"Unknown"` the claim states. -/
theorem brand_default_counterexample :
    (load_and_clean [rawBlankBrand]).map (fun r => (r.brand, r.availability))
        = [("", "")]
      ∧ ("" : String) ≠ "Unknown" := by
  exact ⟨by decide, by decide⟩

/-- C10 (amended): an empty `product_url` after trimming causes rejection of
the record, but empty `brand`/`availability` after trimming are kept as empty
strings — `load_and_clean` performs no `"Unknown"` defaulting (those defaults
are produced upstream by the scraper's extractors on failed extraction, not by
the normalizer on empty-after-trim fields). -/
theorem normalizer_trims_without_default (df : List RawRow) (r : ARow)
    (hr : r ∈ load_and_clean df) :
    r.product_url ≠ ""
      ∧ ∃ raw ∈ df, r = cleanRow raw
          ∧ r.brand = stripStr (raw.brand.getD "")
          ∧ r.availability = stripStr (raw.availability.getD "") := by
  obtain ⟨raw, hraw, rfl, _, hurl, _⟩ := mem_load_and_clean hr
  exact ⟨cleanRow_has_url hurl, raw, hraw, rfl, by simp [cleanRow], by simp [cleanRow]⟩

theorem normalizer_trims_without_default_witness :
    (cleanRow rawBlankBrand).product_url ≠ ""
      ∧ ∃ raw ∈ [rawBlankBrand], cleanRow rawBlankBrand = cleanRow raw
          ∧ (cleanRow rawBlankBrand).brand = stripStr (raw.brand.getD "")
          ∧ (cleanRow rawBlankBrand).availability = stripStr (raw.availability.getD "") :=
  normalizer_trims_without_default [rawBlankBrand] (cleanRow rawBlankBrand) (by decide)

/-! ## Theorems: the filter layer (claim C5) -/

/-- C5: `filter_df` distinguishes its two failure modes — it fails with
`UnknownCategory` (listing the available categories) exactly when the exact
category match leaves zero rows, fails with `EmptyResultSet` exactly when the
category has matching rows but the inclusive date bounds eliminate all of
them, and otherwise returns a non-empty filtered set. -/
theorem filter_df_error_modes (df : List ARow) (category : String)
    (startD endD : Option Nat) :
    (filter_df df category startD endD
        = .error (.UnknownCategory (available_categories df))
      ↔ df.filter (fun r => r.category == category) = [])
    ∧ (filter_df df category startD endD = .error .EmptyResultSet
      ↔ df.filter (fun r => r.category == category) ≠ []
        ∧ filterByDates (df.filter (fun r => r.category == category)) startD endD = [])
    ∧ ∀ res, filter_df df category startD endD = .ok res → res ≠ [] := by
  cases h1 : (df.filter (fun r => r.category == category)).isEmpty with
  | true =>
    have he : filter_df df category startD endD
        = .error (.UnknownCategory (available_categories df)) := by
      simp only [filter_df, h1, if_true]
    rw [List.isEmpty_iff] at h1
    refine ⟨⟨fun _ => h1, fun _ => he⟩, ⟨fun hc => ?_, fun hc => absurd h1 hc.1⟩,
      fun res hres => ?_⟩
    · rw [he] at hc
      exact absurd (Except.error.inj hc) (by simp)
    · rw [he] at hres
      exact absurd hres (by simp)
  | false =>
    have h1' : df.filter (fun r => r.category == category) ≠ [] := by
      intro hc
      rw [hc] at h1
      exact absurd h1 (by simp)
    cases h2 : (filterByDates (df.filter (fun r => r.category == category))
        startD endD).isEmpty with
    | true =>
      have he : filter_df df category startD endD = .error .EmptyResultSet := by
        simp only [filter_df, h1, h2]
        rfl
      rw [List.isEmpty_iff] at h2
      refine ⟨⟨fun hc => ?_, fun hc => absurd hc h1'⟩,
        ⟨fun _ => ⟨h1', h2⟩, fun _ => he⟩, fun res hres => ?_⟩
      · rw [he] at hc
        exact absurd (Except.error.inj hc) (by simp)
      · rw [he] at hres
        exact absurd hres (by simp)
    | false =>
      have he : filter_df df category startD endD
          = .ok (filterByDates (df.filter (fun r => r.category == category))
              startD endD) := by
        simp only [filter_df, h1, h2]
        rfl
      have h2' : filterByDates (df.filter (fun r => r.category == category))
          startD endD ≠ [] := by
        intro hc
        rw [hc] at h2
        exact absurd h2 (by simp)
      refine ⟨⟨fun hc => ?_, fun hc => absurd hc h1'⟩,
        ⟨fun hc => ?_, fun hc => absurd hc.2 h2'⟩, fun res hres => ?_⟩
      · rw [he] at hc
        exact absurd hc (by simp)
      · rw [he] at hc
        exact absurd hc (by simp)
      · rw [he] at hres
        rw [← Except.ok.inj hres]
        exact h2'

theorem filter_df_error_modes_witness :
    filter_df dfCats "GPU" none none
      = .error (.UnknownCategory ["Monitor", "SSD"]) := by
  have h := (filter_df_error_modes dfCats "GPU" none none).1.mpr (by decide)
  have h2 : available_categories dfCats = ["Monitor", "SSD"] := by decide
  rw [h, h2]

/-! ## Theorems: daily aggregation (claim C6) -/

theorem length_withMa7 (base : List DailyStat) :
    (withMa7 base).length = base.length := by
  simp [withMa7]

theorem get_withMa7 (base : List DailyStat) (i : Nat)
    (h : i < (withMa7 base).length) (h' : i < base.length) :
    (withMa7 base).get ⟨i, h⟩ =
      { base.get ⟨i, h'⟩ with
        avg_price_ma7 := rollingMean7At (base.map (fun b => b.avg_price)) i } := by
  simp only [withMa7, List.get_eq_getElem, List.getElem_zipWith, List.getElem_range]

theorem map_avg_withMa7 (base : List DailyStat) :
    (withMa7 base).map (fun s => s.avg_price) = base.map (fun b => b.avg_price) := by
  apply List.ext_getElem
  · simp [length_withMa7]
  · intro i h1 h2
    simp only [List.getElem_map, withMa7, List.getElem_zipWith, List.getElem_range]

/-- C6: for every filtered set, `avg_price_ma7` at position `i` of the daily
sequence equals the arithmetic mean of `avg_price` over that entry and the up
to 6 immediately preceding entries of the sequence (window size
`min (i+1) 7`, hence minimum window 1, not waiting for 7 entries); and on ten
consecutive days of constant `avg_price = 50`, `avg_price_ma7` is 50 for every
day from the first onward. -/
theorem avg_price_ma7_spec :
    (∀ (d : List ARow) (i : Nat) (h : i < (compute_daily_stats d).length),
      ((compute_daily_stats d).get ⟨i, h⟩).avg_price_ma7 =
        ((((compute_daily_stats d).map (fun s => s.avg_price)).take (i + 1)).drop
            (i + 1 - 7)).sum / ((min (i + 1) 7 : Nat) : ℚ))
    ∧ (compute_daily_stats scenarioD).map (fun s => s.avg_price_ma7)
        = List.replicate 10 50 := by
  constructor
  · intro d i h
    have h' : i < ((daysOf d).map (statOfDay d)).length := by
      have := length_withMa7 ((daysOf d).map (statOfDay d))
      simp only [compute_daily_stats] at h
      omega
    simp only [compute_daily_stats] at h ⊢
    rw [get_withMa7 _ _ _ h', map_avg_withMa7]
    simp only [rollingMean7At]
    have hlen : (((((daysOf d).map (statOfDay d)).map (fun b => b.avg_price)).take
        (i + 1)).drop (i + 1 - 7)).length = min (i + 1) 7 := by
      rw [List.length_drop, List.length_take, List.length_map]
      omega
    rw [hlen]
  · with_unfolding_all decide

theorem avg_price_ma7_spec_witness :
    ((compute_daily_stats scenarioD).get ⟨9, by decide⟩).avg_price_ma7 =
      ((((compute_daily_stats scenarioD).map (fun s => s.avg_price)).take (9 + 1)).drop
          (9 + 1 - 7)).sum / ((min (9 + 1) 7 : Nat) : ℚ) :=
  avg_price_ma7_spec.1 scenarioD 9 (by decide)

/-! ## Theorems: the drop ranker (claims C7–C9) -/

theorem mkDropRec_price_first (g : List ARow) :
    (mkDropRec g).price_first = (g.filterMap (fun r => r.price_value)).head? := rfl

theorem mkDropRec_drop_abs (g : List ARow) :
    (mkDropRec g).drop_abs =
      match (g.filterMap (fun r => r.price_value)).head?,
          (g.filterMap (fun r => r.price_value)).getLast? with
        | some a, some b => some (a - b)
        | _, _ => none := rfl

theorem mkDropRec_pos_abs {g : List ARow} {a : ℚ}
    (hpos : ∀ r ∈ g, 0 ≤ r.price_value.getD 0)
    (habs : (mkDropRec g).drop_abs = some a) (ha : 0 < a) :
    ∃ pf : ℚ, (mkDropRec g).price_first = some pf ∧ 0 < pf := by
  rw [mkDropRec_drop_abs] at habs
  cases hf : (g.filterMap (fun r => r.price_value)).head? with
  | none =>
    cases hl : (g.filterMap (fun r => r.price_value)).getLast? with
    | none => rw [hf, hl] at habs; exact Option.noConfusion habs
    | some pl => rw [hf, hl] at habs; exact Option.noConfusion habs
  | some pf =>
    cases hl : (g.filterMap (fun r => r.price_value)).getLast? with
    | none => rw [hf, hl] at habs; exact Option.noConfusion habs
    | some pl =>
      rw [hf, hl] at habs
      have hae : pf - pl = a := Option.some.inj habs
      have hplmem : pl ∈ g.filterMap (fun r => r.price_value) := by
        rcases List.getLast?_eq_some_iff.mp hl with ⟨ys, hys⟩
        rw [hys]
        simp
      rcases List.mem_filterMap.mp hplmem with ⟨r, hr, hrp⟩
      have h0 : 0 ≤ pl := by
        have hp := hpos r hr
        rw [hrp] at hp
        simpa using hp
      refine ⟨pf, ?_, ?_⟩
      · rw [mkDropRec_price_first, hf]
      · linarith

/-- C9: when every price of the filtered set is non-negative, no record of the
report has a zero (or missing) `price_first` — its `price_first` is present
and strictly positive.  A zero-first-price row cannot pass the positive
`drop_abs` filter, so no non-finite `drop_pct` can be reported. -/
theorem rank_drops_price_first_pos (d : List ARow) (top_n : Int)
    (hpos : ∀ r ∈ d, 0 ≤ r.price_value.getD 0)
    (rec : DropRec) (hrec : rec ∈ compute_top_drops d top_n) :
    ∃ pf : ℚ, rec.price_first = some pf ∧ 0 < pf := by
  rw [compute_top_drops] at hrec
  by_cases hg : (d.filterMap (fun r => r.scrape_date)).dedup.length < 2
  · rw [if_pos hg] at hrec
    exact absurd hrec (by simp)
  · rw [if_neg hg, headPandas] at hrec
    have hall : rec ∈ top_drops_all d := by
      by_cases hn : 0 ≤ top_n
      · rw [if_pos hn] at hrec
        exact (List.take_sublist _ _).subset hrec
      · rw [if_neg hn] at hrec
        exact (List.take_sublist _ _).subset hrec
    rw [top_drops_all] at hall
    have hout := (List.perm_insertionSort dropOrder _).mem_iff.mp hall
    rcases List.mem_filter.mp hout with ⟨hrecs, hposabs⟩
    rcases List.mem_map.mp hrecs with ⟨u, _, hrecu⟩
    subst hrecu
    have hgpos : ∀ r ∈ (List.insertionSort urlTsOrder d).filter
        (fun r => r.product_url == u), 0 ≤ r.price_value.getD 0 := by
      intro r hr
      exact hpos r ((List.perm_insertionSort urlTsOrder d).mem_iff.mp
        (List.mem_filter.mp hr).1)
    cases habs : (mkDropRec ((List.insertionSort urlTsOrder d).filter
        (fun r => r.product_url == u))).drop_abs with
    | none => rw [habs] at hposabs; simp at hposabs
    | some a =>
      rw [habs] at hposabs
      simp only [decide_eq_true_eq] at hposabs
      exact mkDropRec_pos_abs hgpos habs hposabs

/-- The report record for product `a` of `dfDrops`. -/
def dropRecA : DropRec :=
  { product_name := "A", product_url := "https://www.newegg.com/a",
    scrape_date_first := some 0, price_first := some 100,
    scrape_date_last := some 1, price_last := some 80,
    drop_abs := some 20, drop_pct := some 20 }

theorem rank_drops_price_first_pos_witness :
    ∃ pf : ℚ, dropRecA.price_first = some pf ∧ 0 < pf :=
  rank_drops_price_first_pos dfDrops 10 (by decide) dropRecA
    (by with_unfolding_all decide)

/-- C7 counterexample: on `dfDrops` both products drop by 20%, with `drop_abs`
20 (product `a`) and 40 (product `b`); the report keeps `a` before `b`, so
ties are not broken by descending `drop_abs` — the output is not sorted by the
order the claim states. -/
theorem rank_drops_tiebreak_counterexample :
    ¬ List.Pairwise specDropOrder (compute_top_drops dfDrops 10) := by
  with_unfolding_all decide

/-- C7 (amended): the report is sorted descending by `drop_pct` — the recorded
`drop_pct` is non-increasing across the output — but no `drop_abs` or
`product_url` tie-break is applied: tied records keep the order the underlying
sort leaves them in. -/
theorem rank_drops_sorted (d : List ARow) (top_n : Int) :
    List.Pairwise (fun a b => pctVal b ≤ pctVal a) (compute_top_drops d top_n) := by
  rw [compute_top_drops]
  by_cases hg : (d.filterMap (fun r => r.scrape_date)).dedup.length < 2
  · rw [if_pos hg]
    exact List.Pairwise.nil
  · rw [if_neg hg]
    have hsorted : List.Pairwise dropOrder (top_drops_all d) := by
      rw [top_drops_all]
      haveI : IsTotal DropRec dropOrder := ⟨fun a b => le_total (pctVal b) (pctVal a)⟩
      haveI : IsTrans DropRec dropOrder := ⟨fun _ _ _ hab hbc => le_trans hbc hab⟩
      exact List.sorted_insertionSort dropOrder _
    have htake : ∀ k : Nat, List.Pairwise dropOrder ((top_drops_all d).take k) :=
      fun k => List.Pairwise.sublist (List.take_sublist k _) hsorted
    rw [headPandas]
    by_cases hn : 0 ≤ top_n
    · rw [if_pos hn]; exact htake _
    · rw [if_neg hn]; exact htake _

/-- C8 counterexample: `head` with a negative `top_n` does not yield an empty
report — on `dfDrops` (two drop records), `top_n = -1` returns one record,
refuting "every `top_n ≤ 0` yields an empty sequence". -/
theorem rank_drops_negative_topn_counterexample :
    ((-1 : Int) ≤ 0) ∧ compute_top_drops dfDrops (-1) ≠ [] := by
  with_unfolding_all decide

/-- C8 (amended): for `top_n ≥ 0` the report has at most `top_n` records
(`top_n = 0` yields an empty report); for negative `top_n`, pandas `head`
semantics return all drop records except the last `|top_n|` — without
erroring, but not an empty sequence. -/
theorem rank_drops_truncation (d : List ARow) (top_n : Int) :
    (0 ≤ top_n → (compute_top_drops d top_n).length ≤ top_n.toNat)
      ∧ (top_n < 0 → 2 ≤ (d.filterMap (fun r => r.scrape_date)).dedup.length →
          (compute_top_drops d top_n).length
            = (top_drops_all d).length - top_n.natAbs) := by
  constructor
  · intro hn
    rw [compute_top_drops]
    by_cases hg : (d.filterMap (fun r => r.scrape_date)).dedup.length < 2
    · rw [if_pos hg]
      exact Nat.zero_le _
    · rw [if_neg hg, headPandas, if_pos hn, List.length_take]
      omega
  · intro hn hg2
    have hg : ¬ (d.filterMap (fun r => r.scrape_date)).dedup.length < 2 := by omega
    rw [compute_top_drops, if_neg hg, headPandas, if_neg (by omega), List.length_take]
    omega

theorem rank_drops_truncation_witness :
    ((compute_top_drops dfDrops 1).length ≤ (1 : Int).toNat)
      ∧ (compute_top_drops dfDrops (-1)).length
          = (top_drops_all dfDrops).length - (-1 : Int).natAbs :=
  ⟨(rank_drops_truncation dfDrops 1).1 (by decide),
    (rank_drops_truncation dfDrops (-1)).2 (by decide) (by decide)⟩

end PriceTracker
